import Mathlib

/-!
Verification development for the `aic` changelog normalization engine
(`main.go`).  Strings are modelled as lists of characters (`Str`); all
positions produced by the regular-expression collaborator (Go `regexp`)
are modelled as explicit index lists, and the Go standard-library helpers
used by the parsers (`strings.TrimSpace`, `strings.TrimPrefix`,
`strings.Split`, `strings.HasPrefix`, `time.Parse`) are embedded as
executable Lean functions with the same behavior on the inputs the
program feeds them.
-/

abbrev Str := List Char

/-- Character class of Go `unicode.IsSpace` restricted to the Latin-1 range,
which is what `strings.TrimSpace` trims: space, tab, newline, vertical tab,
form feed, carriage return, next line (U+0085) and no-break space (U+00A0). -/
def goIsSpace (c : Char) : Bool :=
  c == ' ' || c == '\t' || c == '\n' || c == Char.ofNat 11 || c == Char.ofNat 12 ||
    c == '\r' || c == Char.ofNat 133 || c == Char.ofNat 160

/-- Go `strings.TrimSpace`, left half: drop leading white space. -/
def trimLeft (s : Str) : Str := s.dropWhile goIsSpace

/-- Go `strings.TrimSpace`, right half: drop trailing white space. -/
def trimRight (s : Str) : Str := (s.reverse.dropWhile goIsSpace).reverse

/-- Go `strings.TrimSpace`. -/
def trimSpace (s : Str) : Str := trimRight (trimLeft s)

/-- Go `strings.TrimPrefix p` (strip `p` once if it is a leading pattern,
otherwise return the input unchanged). -/
def trimPre (p s : Str) : Str := if p.isPrefixOf s then s.drop p.length else s

/-- Go `strings.Split s "\n"`: split into lines at every newline; the empty
string yields one empty line, like Go. -/
def splitLines : Str → List Str
  | [] => [[]]
  | c :: rest =>
    if c = '\n' then [] :: splitLines rest
    else
      match splitLines rest with
      | l :: ls => (c :: l) :: ls
      | [] => [[c]]

/-- The bullet marker accepted by the flat parser and (as first alternative)
by the hierarchical parser: `"- "`. -/
def dashMarker : Str := "- ".toList

/-- The second bullet marker of the hierarchical parser: `"* "`. -/
def starMarker : Str := "* ".toList

/-- The attribution-mention marker `"@"`. -/
def atMark : Str := "@".toList

/-- `parseChanges` from `main.go`: scan the lines of a span and collect the
text after a leading `"- "` marker of each trimmed line, in document order.
No other line shape contributes and nothing is filtered. -/
def parseChanges (content : Str) : List Str :=
  (splitLines content).foldl
    (fun changes line =>
      let trimmed := trimSpace line
      if dashMarker.isPrefixOf trimmed then
        changes ++ [trimPre dashMarker trimmed]
      else changes) []

/-- Character class `\s` of Go regular expressions: `[\t\n\f\r ]`. -/
def reSpace (c : Char) : Bool :=
  c == ' ' || c == '\t' || c == '\n' || c == Char.ofNat 12 || c == '\r'

/-- The submatch of the anchored Go regular expression of `parseReleaseBody`
on one (already trimmed) line, with leftmost-first semantics: one to three
leading hash characters, at least one regex white-space character, then the
rest of the line as the capture, which may not contain a newline and has to
be non-empty.  When every remaining character is white space the greedy
white-space run gives one character back to the capture, provided one
white-space character is left for the run itself and the captured character
is not a newline (the dot of the capture never matches a newline). -/
def headerMatch (s : Str) : Option Str :=
  let c := (s.takeWhile (fun ch => ch == '#')).length
  if 1 ≤ c ∧ c ≤ 3 then
    let rest := s.drop c
    let sp := (rest.takeWhile reSpace).length
    if sp = 0 then none
    else
      let rem := rest.drop sp
      if rem.isEmpty then
        if 2 ≤ sp ∧ rest.getLast? ≠ some '\n' then some (rest.drop (sp - 1))
        else none
      else if rem.contains '\n' then none else some rem
  else none

/-- A named grouping of changes within one entry (`Section` in `main.go`). -/
structure Section where
  name : Str
  changes : List Str
deriving DecidableEq

/-- The wrapper header text that the hierarchical parser ignores. -/
def whatsChanged : Str := "What\x27s Changed".toList

/-- The scan state of `parseReleaseBody`: sections already emitted, the
ungrouped changes collected so far, and the currently open section. -/
structure PRBState where
  sections : List Section
  ungrouped : List Str
  current : Option Section
deriving DecidableEq

/-- The flush performed by `parseReleaseBody` on a header transition and at
end of input: append the open section only when it has at least one change. -/
def flushCurrent (sections : List Section) : Option Section → List Section
  | some cs => if 0 < cs.changes.length then sections ++ [cs] else sections
  | none => sections

/-- One loop iteration of `parseReleaseBody` over a line of the body. -/
def prbStep (st : PRBState) (line : Str) : PRBState :=
  let trimmed := trimSpace line
  match headerMatch trimmed with
  | some cap =>
    let headerName := trimSpace cap
    if headerName = whatsChanged then st
    else
      { sections := flushCurrent st.sections st.current
        ungrouped := st.ungrouped
        current := some { name := headerName, changes := [] } }
  | none =>
    if dashMarker.isPrefixOf trimmed || starMarker.isPrefixOf trimmed then
      let change := trimPre starMarker (trimPre dashMarker trimmed)
      if !change.isEmpty && !(atMark.isPrefixOf change) then
        match st.current with
        | some cs =>
          { st with current := some { cs with changes := cs.changes ++ [change] } }
        | none => { st with ungrouped := st.ungrouped ++ [change] }
      else st
    else st

/-- `parseReleaseBody` from `main.go`: turn one release body into the pair
of its named sections and its ungrouped changes. -/
def parseReleaseBody (body : Str) : List Section × List Str :=
  let st := (splitLines body).foldl prbStep
    { sections := [], ungrouped := [], current := none }
  (flushCurrent st.sections st.current, st.ungrouped)

/-- Model of Go `time.Time` restricted to what the program observes: the
broken-down calendar fields and the zone offset in minutes.  The Go zero
value is January 1 of year 1, midnight, UTC. -/
structure GoTime where
  year : Nat
  month : Nat
  day : Nat
  hour : Nat
  minute : Nat
  second : Nat
  offsetMin : Int
deriving DecidableEq

/-- The zero `time.Time` value. -/
def GoTime.zero : GoTime := ⟨1, 1, 1, 0, 0, 0, 0⟩

/-- Gregorian leap-year rule used by Go `time`. -/
def leapYear (y : Nat) : Bool :=
  y % 4 == 0 && (!(y % 100 == 0) || y % 400 == 0)

/-- Days in a month, as validated by Go `time.Parse`. -/
def daysIn (y m : Nat) : Nat :=
  if m = 2 then (if leapYear y then 29 else 28)
  else if m = 4 ∨ m = 6 ∨ m = 9 ∨ m = 11 then 30
  else 31

/-- Numeric value of a digit string (only applied to digit characters). -/
def natOfDigits (s : Str) : Nat :=
  s.foldl (fun a c => a * 10 + (c.toNat - 48)) 0

/-- Go `time.Parse` with layout `2006-01-02`: exactly four year digits, a
dash, two month digits, a dash, two day digits, nothing else, with the month
and the day range-checked; the result is midnight UTC of that day.  `none`
models the error return. -/
def timeParseDate (s : Str) : Option GoTime :=
  match s with
  | [y1, y2, y3, y4, '-', mo1, mo2, '-', d1, d2] =>
    if ([y1, y2, y3, y4, mo1, mo2, d1, d2]).all Char.isDigit then
      let year := natOfDigits [y1, y2, y3, y4]
      let month := natOfDigits [mo1, mo2]
      let day := natOfDigits [d1, d2]
      if 1 ≤ month ∧ month ≤ 12 ∧ 1 ≤ day ∧ day ≤ daysIn year month then
        some ⟨year, month, day, 0, 0, 0, 0⟩
      else none
    else none
  | _ => none

/-- Optional fractional second accepted by Go `time.Parse` after the seconds
field: a dot followed by at least one digit; returns the rest of the input. -/
def skipFrac : Str → Option Str
  | '.' :: rest =>
    let ds := rest.takeWhile Char.isDigit
    if ds.isEmpty then none else some (rest.drop ds.length)
  | rest => some rest

/-- Time-zone suffix of layout `Z07:00`: a literal `Z` (UTC) or a signed
`hh:mm` offset, returned in minutes. -/
def parseZone : Str → Option Int
  | ['Z'] => some 0
  | [sg, a1, a2, ':', b1, b2] =>
    if (sg = '+' ∨ sg = '-') ∧ ([a1, a2, b1, b2]).all Char.isDigit then
      let off : Int := (natOfDigits [a1, a2]) * 60 + natOfDigits [b1, b2]
      some (if sg = '-' then -off else off)
    else none
  | _ => none

/-- Go `time.Parse` with layout `time.RFC3339`, as used on the
`published_at` field of a release record; `none` models the error return. -/
def timeParseRFC3339 (s : Str) : Option GoTime :=
  match s with
  | y1 :: y2 :: y3 :: y4 :: '-' :: mo1 :: mo2 :: '-' :: d1 :: d2 :: 'T' ::
      h1 :: h2 :: ':' :: mi1 :: mi2 :: ':' :: s1 :: s2 :: rest =>
    if ([y1, y2, y3, y4, mo1, mo2, d1, d2, h1, h2, mi1, mi2, s1, s2]).all Char.isDigit then
      let year := natOfDigits [y1, y2, y3, y4]
      let month := natOfDigits [mo1, mo2]
      let day := natOfDigits [d1, d2]
      let hour := natOfDigits [h1, h2]
      let minute := natOfDigits [mi1, mi2]
      let second := natOfDigits [s1, s2]
      match skipFrac rest with
      | none => none
      | some rest2 =>
        match parseZone rest2 with
        | none => none
        | some off =>
          if 1 ≤ month ∧ month ≤ 12 ∧ 1 ≤ day ∧ day ≤ daysIn year month ∧
              hour ≤ 23 ∧ minute ≤ 59 ∧ second ≤ 59 then
            some ⟨year, month, day, hour, minute, second, off⟩
          else none
    else none
  | _ => none

/-- The normalized entry model (`ChangelogEntry` in `main.go`). -/
structure ChangelogEntry where
  version : Str
  releasedAt : GoTime
  source : Str
  sections : List Section
  changes : List Str
deriving DecidableEq

/-- One regular-expression match of the undated flat-parser pattern, as
reported by Go `FindAllStringSubmatchIndex`: the bounds of the full match
and of its single capture group (the version token). -/
structure ReMatch where
  mStart : Nat
  mEnd : Nat
  capStart : Nat
  capEnd : Nat
deriving DecidableEq

/-- One match of the dated flat-parser pattern: the bounds of the full match
and of its two capture groups (version token and date token). -/
structure ReMatchD where
  mStart : Nat
  mEnd : Nat
  verStart : Nat
  verEnd : Nat
  dateStart : Nat
  dateEnd : Nat
deriving DecidableEq

/-- Go slicing `s[a:b]`. -/
def substr (s : Str) (a b : Nat) : Str := (s.drop a).take (b - a)

/-- Well-formedness of a match list relative to a document, starting the
scan at position `pos`: Go `FindAll` reports matches in document order,
non-overlapping, within bounds, with each capture inside its match. -/
def wfFrom (len : Nat) : Nat → List ReMatch → Bool
  | _, [] => true
  | pos, m :: rest =>
    decide (pos ≤ m.mStart) && decide (m.mStart ≤ m.capStart) &&
      decide (m.capStart ≤ m.capEnd) && decide (m.capEnd ≤ m.mEnd) &&
      decide (m.mEnd ≤ len) && wfFrom len m.mEnd rest

/-- Well-formedness for dated matches. -/
def wfFromD (len : Nat) : Nat → List ReMatchD → Bool
  | _, [] => true
  | pos, m :: rest =>
    decide (pos ≤ m.mStart) && decide (m.mStart ≤ m.verStart) &&
      decide (m.verStart ≤ m.verEnd) && decide (m.verEnd ≤ m.dateStart) &&
      decide (m.dateStart ≤ m.dateEnd) && decide (m.dateEnd ≤ m.mEnd) &&
      decide (m.mEnd ≤ len) && wfFromD len m.mEnd rest

/-- `parseMarkdownChangelog` from `main.go`, over the match list the
caller-supplied header pattern produces on the document: for each match,
the version is the capture text and the span runs from the end of the full
match to the start of the next match (or end of document). -/
def parseMarkdownChangelog (content : Str) : List ReMatch → List ChangelogEntry
  | [] => []
  | m :: rest =>
    let ver := substr content m.capStart m.capEnd
    let contentEnd :=
      match rest with
      | next :: _ => next.mStart
      | [] => content.length
    let sectionContent := substr content m.mEnd contentEnd
    { version := ver, releasedAt := GoTime.zero, source := [], sections := [],
      changes := parseChanges sectionContent } :: parseMarkdownChangelog content rest

/-- `parseMarkdownChangelogWithDate` from `main.go`: like the undated
variant but with a second capture parsed as a `2006-01-02` date; a failed
date parse is discarded and leaves the zero time. -/
def parseMarkdownChangelogWithDate (content : Str) : List ReMatchD → List ChangelogEntry
  | [] => []
  | m :: rest =>
    let ver := substr content m.verStart m.verEnd
    let dateStr := substr content m.dateStart m.dateEnd
    let releasedAt := (timeParseDate dateStr).getD GoTime.zero
    let contentEnd :=
      match rest with
      | next :: _ => next.mStart
      | [] => content.length
    let sectionContent := substr content m.mEnd contentEnd
    { version := ver, releasedAt := releasedAt, source := [], sections := [],
      changes := parseChanges sectionContent } :: parseMarkdownChangelogWithDate content rest

/-- The span texts (`sectionContent`) the flat parser extracts, one per
match, in document order. -/
def pmcSpans (content : Str) : List ReMatch → List Str
  | [] => []
  | m :: rest =>
    substr content m.mEnd
      (match rest with
       | next :: _ => next.mStart
       | [] => content.length) :: pmcSpans content rest

/-- The full text of a match inside the document. -/
def matchText (content : Str) (m : ReMatch) : Str := substr content m.mStart m.mEnd

/-- Alternating concatenation `s0 ++ h1 ++ s1 ++ h2 ++ s2 ++ ...` of spans
and the separating header texts. -/
def altConcat : List Str → List Str → Str
  | [], _ => []
  | s :: ss, [] => s ++ altConcat ss []
  | s :: ss, h :: hs => s ++ h ++ altConcat ss hs

/-- The bare `v` version tag marker. -/
def vMarker : Str := "v".toList

/-- The `rust-v` version tag marker. -/
def rustVMarker : Str := "rust-v".toList

/-- The version-string normalizer of `fetchGitHubReleases` in `main.go`:
`strings.TrimPrefix(ver, "v")` followed by
`strings.TrimPrefix(ver, "rust-v")` on its result. -/
def normalizeVersion (tag : Str) : Str :=
  trimPre rustVMarker (trimPre vMarker tag)

/-- One decoded release record of the GitHub releases API. -/
structure Release where
  tagName : Str
  relName : Str
  body : Str
  publishedAt : Str

/-- The per-release transformation loop of `fetchGitHubReleases` in
`main.go`: normalize the tag, parse the body hierarchically, parse the
publish timestamp as RFC3339 discarding any error. -/
def releasesToEntries (releases : List Release) : List ChangelogEntry :=
  releases.map fun rel =>
    { version := normalizeVersion rel.tagName
      releasedAt := (timeParseRFC3339 rel.publishedAt).getD GoTime.zero
      source := []
      sections := (parseReleaseBody rel.body).1
      changes := (parseReleaseBody rel.body).2 }

/-! Concrete documents and match lists used to settle individual claims.
Each match list is the list of index quadruples or sextuples that the
repository's own header pattern produces on the document; the indices are
written out and their well-formedness is checked by `decide` where a claim
needs it. -/

/-- Document for the C1 counterexample: the undated flat-parser source shape
(pattern of `fetchClaudeChangelog`) with an attribution-mention bullet. -/
def c1doc : Str := "## 1.0.0\n- @bob fixed a bug".toList

/-- The single match of the pattern on `c1doc`: full text `## 1.0.0` at
positions 0 to 8, capture `1.0.0` at positions 3 to 8. -/
def c1ms : List ReMatch := [⟨0, 8, 3, 8⟩]

/-- The change string that survives into the C1 counterexample entry. -/
def c1change : Str := "@bob fixed a bug".toList

/-- Body for the C1 and C5 witnesses: one section with a surviving bullet. -/
def w1body : Str := "## A\n- @x\n- y".toList

/-- Tag for the C2 counterexample: a bare `v` immediately followed by
`rust-v`. -/
def c2tag : Str := "vrust-v1.0.0".toList

/-- Body for the C3 counterexample: one bullet whose dash marker is
immediately followed by a star marker. -/
def c3body : Str := "- * foo".toList

/-- Document for the C4 counterexample: two header matches with bullet
content between and after them. -/
def c4doc : Str := "## 1.0.0\n- a\n## 0.9.0\n- b".toList

/-- The two matches of the pattern on `c4doc`. -/
def c4ms : List ReMatch := [⟨0, 8, 3, 8⟩, ⟨13, 21, 16, 21⟩]

/-- Document for the C4 witness: two header matches with no bullet between
them, so the first entry has zero changes. -/
def c4wdoc : Str := "## 1.0.0\n## 0.9.0\n- b".toList

/-- The two matches of the pattern on `c4wdoc`. -/
def c4wms : List ReMatch := [⟨0, 8, 3, 8⟩, ⟨9, 17, 12, 17⟩]

/-- Body for the C5 collapse conjunct: two consecutive headers with no
bullet between them. -/
def c5body : Str := "## A\n## B\n- x".toList

/-- Body for the C6 section-attribution conjunct: a wrapper header between
two bullets of an open section. -/
def c6body : Str := "## A\n- a\n## What\x27s Changed\n- b".toList

/-- Body for the C6 ungrouped-attribution conjunct: a wrapper header before
a bullet with no open section. -/
def c6body2 : Str := "## What\x27s Changed\n- c".toList

/-- A wrapper header line used by the C6 witness. -/
def w6line : Str := "## What\x27s Changed".toList

/-- The capture of the header pattern on `w6line`. -/
def w6cap : Str := "What\x27s Changed".toList

/-- A non-trivial scan state used by the C6 witness. -/
def w6state : PRBState :=
  { sections := [⟨("Old".toList), [("z".toList)]⟩]
    ungrouped := [("u".toList)]
    current := some ⟨("Open".toList), [("w".toList)]⟩ }

/-- Span for the C7 concrete conjunct: a star bullet, an attribution
mention bullet and a plain bullet. -/
def c7doc : Str := "* starred\n- @kept\n- normal".toList

/-- Document for C8: the dated flat-parser source shape (pattern of
`fetchCopilotChangelog`). -/
def c8doc : Str := "## 1.5.0 - 2025-03-10\n- x".toList

/-- The single match of the dated pattern on `c8doc`: full text at 0 to 21,
version capture at 3 to 8, date capture at 11 to 21. -/
def c8ms : List ReMatchD := [⟨0, 21, 3, 8, 11, 21⟩]

/-- Document for C10: same shape as `c8doc` but the date capture is
`2025-13-40`, which matches the textual pattern yet is no calendar date. -/
def c10doc : Str := "## 1.5.0 - 2025-13-40\n- x".toList

/-- The single match of the dated pattern on `c10doc`. -/
def c10ms : List ReMatchD := [⟨0, 21, 3, 8, 11, 21⟩]

/-- A release record with a malformed `published_at` field, for C10. -/
def c10rel : Release :=
  { tagName := "v1.0.0".toList
    relName := []
    body := []
    publishedAt := "not-a-timestamp".toList }

/-! General helper lemmas. -/

theorem foldlInv {α β : Type} (f : α → β → α) (P : α → Prop)
    (step : ∀ a b, P a → P (f a b)) :
    ∀ (l : List β) (a : α), P a → P (List.foldl f a l) := by
  intro l
  induction l with
  | nil => intro a h; simpa using h
  | cons x xs ih => intro a h; simpa using ih (f a x) (step a x h)

theorem trimPre_pos {p s : Str} (h : p.isPrefixOf s = true) :
    trimPre p s = s.drop p.length := by
  simp [trimPre, h]

theorem trimPre_neg {p s : Str} (h : p.isPrefixOf s = false) :
    trimPre p s = s := by
  simp [trimPre, h]

theorem isPrefixOf_append_self (p s : Str) : p.isPrefixOf (p ++ s) = true :=
  List.isPrefixOf_iff_prefix.mpr (List.prefix_append p s)

theorem isPrefixOf_cons_neq {a b : Char} {as bs : Str} (h : a ≠ b) :
    (a :: as).isPrefixOf (b :: bs) = false := by
  rw [Bool.eq_false_iff]
  intro hc
  exact h (List.cons_prefix_cons.mp (List.isPrefixOf_iff_prefix.mp hc)).1

theorem trimPre_append (p s : Str) : trimPre p (p ++ s) = s := by
  rw [trimPre_pos (isPrefixOf_append_self p s), List.drop_left]

theorem isEmpty_false_of_ne_nil {s : Str} (h : s ≠ []) : s.isEmpty = false := by
  cases s with
  | nil => cases h rfl
  | cons c t => rfl

theorem dropWhile_cons_eq_self {p : Char → Bool} {c : Char} {l : Str}
    (h : List.dropWhile p (c :: l) = c :: l) : p c = false := by
  by_cases hb : p c = true
  · rw [List.dropWhile_cons, if_pos hb] at h
    have hle : (List.dropWhile p l).length ≤ l.length :=
      (List.dropWhile_suffix p).length_le
    rw [h] at hle
    simp at hle
  · exact Bool.eq_false_iff.mpr hb

theorem dropWhile_eq_self_of_length {p : Char → Bool} {l : Str}
    (h : (List.dropWhile p l).length = l.length) : List.dropWhile p l = l :=
  (List.dropWhile_suffix p).eq_of_length h

theorem length_trimLeft_le (s : Str) : (trimLeft s).length ≤ s.length :=
  (List.dropWhile_suffix goIsSpace).length_le

theorem length_trimRight_le (s : Str) : (trimRight s).length ≤ s.length := by
  have h := (List.dropWhile_suffix (l := s.reverse) goIsSpace).length_le
  simpa [trimRight] using h

theorem trimLeft_eq_self_of_trim {s : Str} (h : trimSpace s = s) :
    trimLeft s = s := by
  have h1 : s.length ≤ (trimLeft s).length := by
    conv_lhs => rw [← h]
    exact length_trimRight_le (trimLeft s)
  exact dropWhile_eq_self_of_length
    (Nat.le_antisymm (length_trimLeft_le s) h1)

theorem trimRight_eq_self_of_trim {s : Str} (h : trimSpace s = s) :
    trimRight s = s := by
  have hl := trimLeft_eq_self_of_trim h
  calc trimRight s = trimRight (trimLeft s) := by rw [hl]
    _ = s := h

theorem trimRight_append {m r : Str} (hr : trimRight r = r) (hne : r ≠ []) :
    trimRight (m ++ r) = m ++ r := by
  cases hrv : r.reverse with
  | nil => cases hne (by simpa using hrv)
  | cons c t =>
    have hdw : List.dropWhile goIsSpace r.reverse = r.reverse := by
      have := congrArg List.reverse hr
      simpa [trimRight] using this
    have hc : goIsSpace c = false := by
      rw [hrv] at hdw
      exact dropWhile_cons_eq_self hdw
    unfold trimRight
    rw [List.reverse_append, hrv, List.cons_append, List.dropWhile_cons,
      if_neg (by simp [hc]), ← List.cons_append, ← hrv, ← List.reverse_append,
      List.reverse_reverse]

theorem trimLeft_cons {c : Char} {l : Str} (h : goIsSpace c = false) :
    trimLeft (c :: l) = c :: l := by
  simp [trimLeft, List.dropWhile_cons, h]

theorem trimSpace_eq_self_append {c : Char} {m r : Str} (hc : goIsSpace c = false)
    (hr : trimSpace r = r) (hne : r ≠ []) :
    trimSpace (c :: m ++ r) = c :: m ++ r := by
  unfold trimSpace
  rw [show (c :: m ++ r : Str) = c :: (m ++ r) from rfl, trimLeft_cons hc]
  exact trimRight_append (m := c :: m) (trimRight_eq_self_of_trim hr) hne

theorem splitLines_no_newline {s : Str} (h : '\n' ∉ s) : splitLines s = [s] := by
  induction s with
  | nil => rfl
  | cons c t ih =>
    have hc : ¬ c = '\n' := fun he => h (he ▸ List.mem_cons_self c t)
    have ht : '\n' ∉ t := fun hm => h (List.mem_cons_of_mem c hm)
    simp [splitLines, hc, ih ht]

theorem headerMatch_not_hash {c : Char} {l : Str} (h : (c == '#') = false) :
    headerMatch (c :: l) = none := by
  simp [headerMatch, List.takeWhile_cons, h]

/-! Helper lemmas for the flat parser. -/

theorem substr_split {s : Str} {a b c : Nat} (h1 : a ≤ b) (h2 : b ≤ c) :
    substr s a c = substr s a b ++ substr s b c := by
  unfold substr
  rw [show c - a = (b - a) + (c - b) by omega, List.take_add, List.drop_drop,
    show a + (b - a) = b by omega]

theorem drop_eq_substr (s : Str) (a : Nat) : List.drop a s = substr s a s.length := by
  unfold substr
  rw [List.take_of_length_le (by rw [List.length_drop])]

theorem wfFrom_cons {len pos : Nat} {m : ReMatch} {rest : List ReMatch}
    (h : wfFrom len pos (m :: rest) = true) :
    pos ≤ m.mStart ∧ m.mStart ≤ m.capStart ∧ m.capStart ≤ m.capEnd ∧
      m.capEnd ≤ m.mEnd ∧ m.mEnd ≤ len ∧ wfFrom len m.mEnd rest = true := by
  simpa [wfFrom, Bool.and_eq_true, decide_eq_true_eq, and_assoc] using h

theorem parseMarkdownChangelog_length (content : Str) :
    ∀ ms : List ReMatch,
      (parseMarkdownChangelog content ms).length = ms.length := by
  intro ms
  induction ms with
  | nil => rfl
  | cons m rest ih => simp [parseMarkdownChangelog, ih]

theorem parseMarkdownChangelog_versions (content : Str) :
    ∀ ms : List ReMatch,
      (parseMarkdownChangelog content ms).map ChangelogEntry.version =
        ms.map (fun m => substr content m.capStart m.capEnd) := by
  intro ms
  induction ms with
  | nil => rfl
  | cons m rest ih => simp [parseMarkdownChangelog, ih]

theorem parseMarkdownChangelog_changes (content : Str) :
    ∀ ms : List ReMatch,
      (parseMarkdownChangelog content ms).map ChangelogEntry.changes =
        (pmcSpans content ms).map parseChanges := by
  intro ms
  induction ms with
  | nil => rfl
  | cons m rest ih => simp [parseMarkdownChangelog, pmcSpans, ih]

theorem pmcSpans_tile (content : Str) :
    ∀ (rest : List ReMatch) (m : ReMatch), m.mEnd ≤ content.length →
      wfFrom content.length m.mEnd rest = true →
      content.drop m.mEnd =
        altConcat (pmcSpans content (m :: rest)) (rest.map (matchText content)) := by
  intro rest
  induction rest with
  | nil =>
    intro m hle _
    simp [pmcSpans, altConcat]
    exact drop_eq_substr content m.mEnd
  | cons m2 rest2 ih =>
    intro m hle hwf
    obtain ⟨h1, h2, h3, h4, h5, hwf2⟩ := wfFrom_cons hwf
    have h15 : m2.mStart ≤ m2.mEnd := le_trans h2 (le_trans h3 h4)
    rw [drop_eq_substr content m.mEnd,
      substr_split h1 (le_trans h15 h5),
      substr_split h15 h5,
      ← drop_eq_substr content m2.mEnd,
      ih m2 h5 hwf2]
    simp [pmcSpans, altConcat, matchText, List.append_assoc]

/-! Helper lemmas for the hierarchical parser. -/

theorem flushCurrent_forall {P : Section → Prop} {secs : List Section}
    {cur : Option Section} (hs : ∀ s ∈ secs, P s)
    (hc : ∀ cs, cur = some cs → 0 < cs.changes.length → P cs) :
    ∀ s ∈ flushCurrent secs cur, P s := by
  cases cur with
  | none => simpa [flushCurrent] using hs
  | some cs =>
    by_cases h : 0 < cs.changes.length
    · intro s hsmem
      simp only [flushCurrent, if_pos h] at hsmem
      rcases List.mem_append.mp hsmem with h1 | h2
      · exact hs s h1
      · rw [List.mem_singleton.mp h2]
        exact hc cs rfl h
    · intro s hsmem
      simp only [flushCurrent, if_neg h] at hsmem
      exact hs s hsmem

theorem prbStep_cases (st : PRBState) (line : Str) :
    prbStep st line = st ∨
    (∃ name, name ≠ whatsChanged ∧
      prbStep st line = { sections := flushCurrent st.sections st.current,
                          ungrouped := st.ungrouped,
                          current := some ⟨name, []⟩ }) ∨
    (∃ change cs, st.current = some cs ∧ change.isEmpty = false ∧
      atMark.isPrefixOf change = false ∧
      prbStep st line =
        { st with current := some ⟨cs.name, cs.changes ++ [change]⟩ }) ∨
    (∃ change, st.current = none ∧ change.isEmpty = false ∧
      atMark.isPrefixOf change = false ∧
      prbStep st line = { st with ungrouped := st.ungrouped ++ [change] }) := by
  cases hm : headerMatch (trimSpace line) with
  | some cap =>
    by_cases hwc : trimSpace cap = whatsChanged
    · left
      simp [prbStep, hm, hwc]
    · right; left
      exact ⟨trimSpace cap, hwc, by simp [prbStep, hm, hwc]⟩
  | none =>
    by_cases hb : (dashMarker.isPrefixOf (trimSpace line) ||
        starMarker.isPrefixOf (trimSpace line)) = true
    · by_cases hg : (!(trimPre starMarker (trimPre dashMarker (trimSpace line))).isEmpty &&
          !(atMark.isPrefixOf (trimPre starMarker (trimPre dashMarker (trimSpace line))))) = true
      · have hg' := hg
        rw [Bool.and_eq_true, Bool.not_eq_true', Bool.not_eq_true'] at hg'
        cases hcur : st.current with
        | some cs =>
          right; right; left
          exact ⟨trimPre starMarker (trimPre dashMarker (trimSpace line)), cs,
            rfl, hg'.1, hg'.2, by simp [prbStep, hm, hb, hg, hcur]⟩
        | none =>
          right; right; right
          exact ⟨trimPre starMarker (trimPre dashMarker (trimSpace line)),
            rfl, hg'.1, hg'.2, by simp [prbStep, hm, hb, hg, hcur]⟩
      · left
        simp [prbStep, hm, hb, hg]
    · left
      simp [prbStep, hm, hb]

theorem prbStep_nonempty {st : PRBState} (line : Str)
    (h : ∀ s ∈ st.sections, s.changes ≠ []) :
    ∀ s ∈ (prbStep st line).sections, s.changes ≠ [] := by
  rcases prbStep_cases st line with heq | ⟨name, hn, heq⟩ |
    ⟨change, cs, hcur, hne, hat, heq⟩ | ⟨change, hcur, hne, hat, heq⟩
  · rw [heq]; exact h
  · rw [heq]
    exact flushCurrent_forall h (fun cs _ hpos => List.length_pos.mp hpos)
  · rw [heq]; exact h
  · rw [heq]; exact h

theorem parseReleaseBody_sections_nonempty (body : Str) :
    ∀ s ∈ (parseReleaseBody body).1, s.changes ≠ [] := by
  unfold parseReleaseBody
  apply flushCurrent_forall
  · exact foldlInv prbStep (fun st => ∀ s ∈ st.sections, s.changes ≠ [])
      (fun st line hh => prbStep_nonempty line hh) (splitLines body)
      { sections := [], ungrouped := [], current := none } (by simp)
  · exact fun cs _ hpos => List.length_pos.mp hpos

theorem prbStep_name {st : PRBState} (line : Str)
    (h1 : ∀ s ∈ st.sections, s.name ≠ whatsChanged)
    (h2 : ∀ cs, st.current = some cs → cs.name ≠ whatsChanged) :
    (∀ s ∈ (prbStep st line).sections, s.name ≠ whatsChanged) ∧
    (∀ cs, (prbStep st line).current = some cs → cs.name ≠ whatsChanged) := by
  rcases prbStep_cases st line with heq | ⟨name, hn, heq⟩ |
    ⟨change, cs, hcur, hne, hat, heq⟩ | ⟨change, hcur, hne, hat, heq⟩
  · rw [heq]; exact ⟨h1, h2⟩
  · rw [heq]
    refine ⟨flushCurrent_forall h1 (fun cs hcs _ => h2 cs hcs), ?_⟩
    intro cs hcs
    have hcs' : some (⟨name, []⟩ : Section) = some cs := hcs
    injection hcs' with hh
    rw [← hh]
    exact hn
  · rw [heq]
    refine ⟨h1, ?_⟩
    intro cs2 hcs2
    have hcs' : some (⟨cs.name, cs.changes ++ [change]⟩ : Section) = some cs2 := hcs2
    injection hcs' with hh
    rw [← hh]
    exact h2 cs hcur
  · rw [heq]
    refine ⟨h1, ?_⟩
    intro cs hcs
    have hcs' : st.current = some cs := hcs
    rw [hcur] at hcs'
    cases hcs'

theorem parseReleaseBody_no_whatsChanged (body : Str) :
    ∀ s ∈ (parseReleaseBody body).1, s.name ≠ whatsChanged := by
  unfold parseReleaseBody
  have hmain := foldlInv prbStep
    (fun st => (∀ s ∈ st.sections, s.name ≠ whatsChanged) ∧
      (∀ cs, st.current = some cs → cs.name ≠ whatsChanged))
    (fun st line hh => prbStep_name line hh.1 hh.2) (splitLines body)
    { sections := [], ungrouped := [], current := none } (by simp)
  exact flushCurrent_forall hmain.1 (fun cs hcs _ => hmain.2 cs hcs)

theorem prbStep_noAt {st : PRBState} (line : Str)
    (h1 : ∀ s ∈ st.sections, ∀ c ∈ s.changes, atMark.isPrefixOf c = false)
    (h2 : ∀ c ∈ st.ungrouped, atMark.isPrefixOf c = false)
    (h3 : ∀ cs, st.current = some cs → ∀ c ∈ cs.changes,
      atMark.isPrefixOf c = false) :
    (∀ s ∈ (prbStep st line).sections, ∀ c ∈ s.changes,
      atMark.isPrefixOf c = false) ∧
    (∀ c ∈ (prbStep st line).ungrouped, atMark.isPrefixOf c = false) ∧
    (∀ cs, (prbStep st line).current = some cs → ∀ c ∈ cs.changes,
      atMark.isPrefixOf c = false) := by
  rcases prbStep_cases st line with heq | ⟨name, hn, heq⟩ |
    ⟨change, cs, hcur, hne, hat, heq⟩ | ⟨change, hcur, hne, hat, heq⟩
  · rw [heq]; exact ⟨h1, h2, h3⟩
  · rw [heq]
    refine ⟨flushCurrent_forall h1 (fun cs hcs _ => h3 cs hcs), h2, ?_⟩
    intro cs hcs
    have hcs' : some (⟨name, []⟩ : Section) = some cs := hcs
    injection hcs' with hh
    rw [← hh]
    intro c hc
    simp at hc
  · rw [heq]
    refine ⟨h1, h2, ?_⟩
    intro cs2 hcs2
    have hcs' : some (⟨cs.name, cs.changes ++ [change]⟩ : Section) = some cs2 := hcs2
    injection hcs' with hh
    rw [← hh]
    intro c hc
    rcases List.mem_append.mp hc with hcl | hcr
    · exact h3 cs hcur c hcl
    · rw [List.mem_singleton.mp hcr]; exact hat
  · rw [heq]
    refine ⟨h1, ?_, ?_⟩
    · intro c hc
      have hc' : c ∈ st.ungrouped ++ [change] := hc
      rcases List.mem_append.mp hc' with hcl | hcr
      · exact h2 c hcl
      · rw [List.mem_singleton.mp hcr]; exact hat
    · intro cs hcs
      have hcs' : st.current = some cs := hcs
      rw [hcur] at hcs'
      cases hcs'

theorem parseReleaseBody_noAt (body : Str) :
    (∀ s ∈ (parseReleaseBody body).1, ∀ c ∈ s.changes,
      atMark.isPrefixOf c = false) ∧
    (∀ c ∈ (parseReleaseBody body).2, atMark.isPrefixOf c = false) := by
  unfold parseReleaseBody
  have hmain := foldlInv prbStep
    (fun st => (∀ s ∈ st.sections, ∀ c ∈ s.changes, atMark.isPrefixOf c = false) ∧
      (∀ c ∈ st.ungrouped, atMark.isPrefixOf c = false) ∧
      (∀ cs, st.current = some cs → ∀ c ∈ cs.changes, atMark.isPrefixOf c = false))
    (fun st line hh => prbStep_noAt line hh.1 hh.2.1 hh.2.2) (splitLines body)
    { sections := [], ungrouped := [], current := none } (by simp)
  exact ⟨flushCurrent_forall hmain.1 (fun cs hcs _ => hmain.2.2 cs hcs), hmain.2.1⟩

theorem parseReleaseBody_one_bullet {line change : Str}
    (hnl : '\n' ∉ line)
    (ht : trimSpace line = line)
    (hhm : headerMatch line = none)
    (hpre : (dashMarker.isPrefixOf line || starMarker.isPrefixOf line) = true)
    (hch : trimPre starMarker (trimPre dashMarker line) = change)
    (hne : change.isEmpty = false)
    (hat : atMark.isPrefixOf change = false) :
    parseReleaseBody line = ([], [change]) := by
  unfold parseReleaseBody
  rw [splitLines_no_newline hnl]
  simp [prbStep, ht, hhm, hpre, hch, hne, hat, flushCurrent]

theorem parseChanges_foldl (lines : List Str) : ∀ acc : List Str,
    lines.foldl (fun changes line =>
      let trimmed := trimSpace line
      if dashMarker.isPrefixOf trimmed then
        changes ++ [trimPre dashMarker trimmed]
      else changes) acc =
    acc ++ ((lines.map trimSpace).filter
      (fun t => dashMarker.isPrefixOf t)).map (fun t => t.drop 2) := by
  induction lines with
  | nil => intro acc; simp
  | cons l ls ih =>
    intro acc
    by_cases h : dashMarker.isPrefixOf (trimSpace l) = true
    · have hlen : dashMarker.length = 2 := rfl
      simp only [List.foldl_cons, List.map_cons, List.filter_cons, h,
        if_pos h, List.map_cons, ih, trimPre_pos h, hlen]
      simp [List.append_assoc]
    · have h' : dashMarker.isPrefixOf (trimSpace l) = false :=
        Bool.eq_false_iff.mpr h
      simp only [List.foldl_cons, List.map_cons, List.filter_cons, h', ih]
      simp [h']

theorem parseChanges_spec (content : Str) :
    parseChanges content =
      (((splitLines content).map trimSpace).filter
        (fun t => dashMarker.isPrefixOf t)).map (fun t => t.drop 2) := by
  unfold parseChanges
  rw [parseChanges_foldl]
  simp

theorem timeParseDate_shape (s : Str) :
    timeParseDate s = none ∨
      ∃ y mo d, timeParseDate s = some ⟨y, mo, d, 0, 0, 0, 0⟩ := by
  unfold timeParseDate
  split
  · split
    · dsimp only
      split
      · exact Or.inr ⟨_, _, _, rfl⟩
      · exact Or.inl rfl
    · exact Or.inl rfl
  · exact Or.inl rfl

theorem timeParseDate_timeFields (s : Str) :
    ((timeParseDate s).getD GoTime.zero).hour = 0 ∧
    ((timeParseDate s).getD GoTime.zero).minute = 0 ∧
    ((timeParseDate s).getD GoTime.zero).second = 0 ∧
    ((timeParseDate s).getD GoTime.zero).offsetMin = 0 := by
  rcases timeParseDate_shape s with h | ⟨y, mo, d, h⟩ <;>
    simp [h, GoTime.zero]

theorem parseMarkdownChangelogWithDate_length (content : Str) :
    ∀ ms : List ReMatchD,
      (parseMarkdownChangelogWithDate content ms).length = ms.length := by
  intro ms
  induction ms with
  | nil => rfl
  | cons m rest ih => simp [parseMarkdownChangelogWithDate, ih]

theorem parseMarkdownChangelogWithDate_timeFields (content : Str) :
    ∀ ms : List ReMatchD,
      (parseMarkdownChangelogWithDate content ms).all
        (fun e => e.releasedAt.hour == 0 && e.releasedAt.minute == 0 &&
          e.releasedAt.second == 0 && e.releasedAt.offsetMin == 0) = true := by
  intro ms
  induction ms with
  | nil => rfl
  | cons m rest ih =>
    have hf := timeParseDate_timeFields (substr content m.dateStart m.dateEnd)
    simp only [parseMarkdownChangelogWithDate, List.all_cons, ih,
      Bool.and_true, Bool.and_eq_true, beq_iff_eq]
    exact ⟨⟨⟨hf.1, hf.2.1⟩, hf.2.2.1⟩, hf.2.2.2⟩

theorem dashMarker_eq : dashMarker = ['-', ' '] := rfl

theorem starMarker_eq : starMarker = ['*', ' '] := rfl

/-! The claims. -/

/-- Claim C1, counterexample: the claim asserts that no change string of an
entry produced by any of the parsers begins with an at sign.  The undated
flat parser keeps attribution-mention bullets: on `c1doc` (whose single
pattern match is `c1ms`), the produced entry carries the change
`@bob fixed a bug`, which begins with the at sign. -/
theorem claim_C1_counterexample :
    wfFrom c1doc.length 0 c1ms = true ∧
    (parseMarkdownChangelog c1doc c1ms).map ChangelogEntry.changes =
      [[c1change]] ∧
    atMark.isPrefixOf c1change = true := by decide

/-- Claim C1, amended: change strings produced by the hierarchical
release-body parser never begin with the at sign — attribution-mention
bullets are discarded by that parser at parse time, both for section
changes and for ungrouped changes; the flat parsers perform no such
filtering. -/
theorem claim_C1 (body : Str) :
    (∀ s ∈ (parseReleaseBody body).1, ∀ c ∈ s.changes,
      atMark.isPrefixOf c = false) ∧
    (∀ c ∈ (parseReleaseBody body).2, atMark.isPrefixOf c = false) :=
  parseReleaseBody_noAt body

/-- Claim C1, witness: the amended theorem applied to the concrete body
`w1body`, whose surviving section change `y` indeed does not begin with
the at sign. -/
theorem claim_C1_witness :
    (⟨("A".toList), [("y".toList)]⟩ : Section) ∈ (parseReleaseBody w1body).1 ∧
    atMark.isPrefixOf ("y".toList) = false :=
  ⟨by decide, (claim_C1 w1body).1 ⟨("A".toList), [("y".toList)]⟩ (by decide)
    ("y".toList) (by decide)⟩

/-- Claim C2, counterexample: the claim asserts that at most one of the two
known prefixes is ever removed, and in particular that an input starting
with `v` followed by `rust-v` loses only the leading `v`.  On the tag
`vrust-v1.0.0` the normalizer removes both prefixes and returns `1.0.0`,
not `rust-v1.0.0`. -/
theorem claim_C2_counterexample :
    normalizeVersion c2tag = ("1.0.0".toList) ∧
    normalizeVersion c2tag ≠ ("rust-v1.0.0".toList) := by decide

/-- Claim C2, amended: the normalizer first strips a leading `v` if present
and then strips a leading `rust-v` from the result if present — the two
checks are chained, not independent.  An input starting with `v`
immediately followed by `rust-v` therefore loses both prefixes; in every
other case at most one prefix is removed and the remainder is returned
unchanged. -/
theorem claim_C2 (t : Str) :
    normalizeVersion (vMarker ++ rustVMarker ++ t) = t ∧
    (vMarker.isPrefixOf t = false → rustVMarker.isPrefixOf t = false →
      normalizeVersion t = t) ∧
    (rustVMarker.isPrefixOf t = true → normalizeVersion t = t.drop 6) ∧
    (vMarker.isPrefixOf t = true →
      rustVMarker.isPrefixOf (t.drop 1) = false →
      normalizeVersion t = t.drop 1) := by
  refine ⟨?_, ?_, ?_, ?_⟩
  · unfold normalizeVersion
    rw [show vMarker ++ rustVMarker ++ t = vMarker ++ (rustVMarker ++ t) from
      List.append_assoc vMarker rustVMarker t, trimPre_append, trimPre_append]
  · intro hv hr
    unfold normalizeVersion
    rw [trimPre_neg hv, trimPre_neg hr]
  · intro hr
    obtain ⟨u, hu⟩ := List.isPrefixOf_iff_prefix.mp hr
    unfold normalizeVersion
    rw [← hu]
    have hv : vMarker.isPrefixOf (rustVMarker ++ u) = false :=
      isPrefixOf_cons_neq (by decide)
    rw [trimPre_neg hv, trimPre_append,
      show (6 : Nat) = rustVMarker.length from rfl, List.drop_left]
  · intro hv hr
    obtain ⟨u, hu⟩ := List.isPrefixOf_iff_prefix.mp hv
    unfold normalizeVersion
    rw [← hu, trimPre_append]
    rw [← hu] at hr
    have hd : (vMarker ++ u).drop 1 = u := rfl
    rw [hd] at hr
    rw [trimPre_neg hr, hd]

/-- Claim C2, witness: the amended theorem applied to the four concrete
tags `vrust-v1.0.0`, `2.0.0`, `rust-v0.9.0` and `v1.2.3`. -/
theorem claim_C2_witness :
    normalizeVersion (vMarker ++ rustVMarker ++ ("1.0.0".toList)) =
      ("1.0.0".toList) ∧
    normalizeVersion ("2.0.0".toList) = ("2.0.0".toList) ∧
    normalizeVersion ("rust-v0.9.0".toList) = ("rust-v0.9.0".toList).drop 6 ∧
    normalizeVersion ("v1.2.3".toList) = ("v1.2.3".toList).drop 1 :=
  ⟨(claim_C2 ("1.0.0".toList)).1,
   (claim_C2 ("2.0.0".toList)).2.1 (by decide) (by decide),
   (claim_C2 ("rust-v0.9.0".toList)).2.2.1 (by decide),
   (claim_C2 ("v1.2.3".toList)).2.2.2 (by decide) (by decide)⟩

/-- Claim C3, counterexample: the claim asserts that the hierarchical
parser removes exactly one two-character marker, so the line `- * foo`
should yield the change `* foo`.  The parser strips the dash marker and
then also strips a star marker from the result, yielding `foo`. -/
theorem claim_C3_counterexample :
    parseReleaseBody c3body = ([], [("foo".toList)]) ∧
    ("foo".toList) ≠ ("* foo".toList) := by decide

/-- Claim C3, amended: for a trimmed bullet line the extracted change
content is the text after the two-character marker, except that a line
beginning with the dash marker immediately followed by the star marker has
both markers removed.  Stated for single-line bodies whose bullet content
`r` is trimmed, non-empty, newline-free and not an attribution mention. -/
theorem claim_C3 (r : Str) (htr : trimSpace r = r) (hne : r ≠ [])
    (hnl : '\n' ∉ r) (hat : atMark.isPrefixOf r = false) :
    (starMarker.isPrefixOf r = false →
      parseReleaseBody (dashMarker ++ r) = ([], [r])) ∧
    parseReleaseBody (starMarker ++ r) = ([], [r]) ∧
    parseReleaseBody (dashMarker ++ starMarker ++ r) = ([], [r]) := by
  have hnldash : '\n' ∉ dashMarker := by decide
  have hnlstar : '\n' ∉ starMarker := by decide
  refine ⟨?_, ?_, ?_⟩
  · intro hst
    apply parseReleaseBody_one_bullet
    · intro hm
      rcases List.mem_append.mp hm with h | h
      · exact hnldash h
      · exact hnl h
    · exact trimSpace_eq_self_append (c := '-') (m := [' ']) (by decide) htr hne
    · exact headerMatch_not_hash (c := '-') (by decide)
    · rw [isPrefixOf_append_self]
      rfl
    · rw [trimPre_append]
      exact trimPre_neg hst
    · exact isEmpty_false_of_ne_nil hne
    · exact hat
  · apply parseReleaseBody_one_bullet
    · intro hm
      rcases List.mem_append.mp hm with h | h
      · exact hnlstar h
      · exact hnl h
    · exact trimSpace_eq_self_append (c := '*') (m := [' ']) (by decide) htr hne
    · exact headerMatch_not_hash (c := '*') (by decide)
    · rw [isPrefixOf_append_self, Bool.or_true]
    · have hd : dashMarker.isPrefixOf (starMarker ++ r) = false :=
        isPrefixOf_cons_neq (by decide)
      rw [trimPre_neg hd, trimPre_append]
    · exact isEmpty_false_of_ne_nil hne
    · exact hat
  · apply parseReleaseBody_one_bullet
    · intro hm
      rcases List.mem_append.mp hm with h | h
      · rcases List.mem_append.mp h with h2 | h2
        · exact hnldash h2
        · exact hnlstar h2
      · exact hnl h
    · exact trimSpace_eq_self_append (c := '-') (m := [' ', '*', ' '])
        (by decide) htr hne
    · exact headerMatch_not_hash (c := '-') (by decide)
    · rw [show dashMarker ++ starMarker ++ r = dashMarker ++ (starMarker ++ r)
        from List.append_assoc dashMarker starMarker r, isPrefixOf_append_self]
      rfl
    · rw [show dashMarker ++ starMarker ++ r = dashMarker ++ (starMarker ++ r)
        from List.append_assoc dashMarker starMarker r, trimPre_append,
        trimPre_append]
    · exact isEmpty_false_of_ne_nil hne
    · exact hat

/-- Claim C3, witness: the amended theorem applied to the bullet content
`foo`: the single-marker lines `- foo` and `* foo` both yield the change
`foo`, and the double-marker line `- * foo` also yields `foo`. -/
theorem claim_C3_witness :
    (parseReleaseBody (dashMarker ++ ("foo".toList)) = ([], [("foo".toList)])) ∧
    parseReleaseBody (starMarker ++ ("foo".toList)) = ([], [("foo".toList)]) ∧
    parseReleaseBody (dashMarker ++ starMarker ++ ("foo".toList)) =
      ([], [("foo".toList)]) :=
  ⟨(claim_C3 ("foo".toList) (by decide) (by decide) (by decide) (by decide)).1
      (by decide),
   (claim_C3 ("foo".toList) (by decide) (by decide) (by decide) (by decide)).2.1,
   (claim_C3 ("foo".toList) (by decide) (by decide) (by decide) (by decide)).2.2⟩

/-- Claim C4, counterexample: the claim asserts that the concatenation of
all entry spans reconstructs the original post-header-0 content.  On
`c4doc` with its two matches `c4ms`, the concatenation of the two spans
omits the full text of the second header match, so it differs from the
content that follows the end of match 0 (position 8). -/
theorem claim_C4_counterexample :
    wfFrom c4doc.length 0 c4ms = true ∧
    (pmcSpans c4doc c4ms).flatten ≠ c4doc.drop 8 := by decide

/-- Claim C4, amended: for a document with `N` non-overlapping matches the
flat parser returns exactly `N` entries in document order, the version of
each entry is the capture text of its match, the changes of each entry are
the bullet scan of its span (which starts right after the full text of its
match and ends right before the next match, or at end of document), and
the spans interleaved with the full texts of the intermediate matches
reconstruct the post-header-0 content exactly — no content outside header
matches is skipped or double-counted; the concatenation of the spans alone
omits the intermediate header texts.  Entries are never dropped, so
adjacent matches yield an entry with zero changes that is still included. -/
theorem claim_C4 (content : Str) (m : ReMatch) (rest : List ReMatch)
    (hwf : wfFrom content.length 0 (m :: rest) = true) :
    (parseMarkdownChangelog content (m :: rest)).length = (m :: rest).length ∧
    (parseMarkdownChangelog content (m :: rest)).map ChangelogEntry.version =
      (m :: rest).map (fun mm => substr content mm.capStart mm.capEnd) ∧
    (parseMarkdownChangelog content (m :: rest)).map ChangelogEntry.changes =
      (pmcSpans content (m :: rest)).map parseChanges ∧
    content.drop m.mEnd =
      altConcat (pmcSpans content (m :: rest)) (rest.map (matchText content)) := by
  obtain ⟨h1, h2, h3, h4, h5, hwf2⟩ := wfFrom_cons hwf
  exact ⟨parseMarkdownChangelog_length content (m :: rest),
    parseMarkdownChangelog_versions content (m :: rest),
    parseMarkdownChangelog_changes content (m :: rest),
    pmcSpans_tile content rest m h5 hwf2⟩

/-- Claim C4, witness: the amended theorem applied to `c4wdoc` and its two
adjacent matches; the first entry has zero changes and is still included
(the entry list has length two). -/
theorem claim_C4_witness :
    wfFrom c4wdoc.length 0 ((⟨0, 8, 3, 8⟩ : ReMatch) :: [⟨9, 17, 12, 17⟩]) =
      true ∧
    ((parseMarkdownChangelog c4wdoc
        ((⟨0, 8, 3, 8⟩ : ReMatch) :: [⟨9, 17, 12, 17⟩])).length =
      ((⟨0, 8, 3, 8⟩ : ReMatch) :: [(⟨9, 17, 12, 17⟩ : ReMatch)]).length ∧
     (parseMarkdownChangelog c4wdoc
        ((⟨0, 8, 3, 8⟩ : ReMatch) :: [⟨9, 17, 12, 17⟩])).map
          ChangelogEntry.version =
      ((⟨0, 8, 3, 8⟩ : ReMatch) :: [(⟨9, 17, 12, 17⟩ : ReMatch)]).map
        (fun mm => substr c4wdoc mm.capStart mm.capEnd) ∧
     (parseMarkdownChangelog c4wdoc
        ((⟨0, 8, 3, 8⟩ : ReMatch) :: [⟨9, 17, 12, 17⟩])).map
          ChangelogEntry.changes =
      (pmcSpans c4wdoc ((⟨0, 8, 3, 8⟩ : ReMatch) :: [⟨9, 17, 12, 17⟩])).map
        parseChanges ∧
     c4wdoc.drop (⟨0, 8, 3, 8⟩ : ReMatch).mEnd =
      altConcat (pmcSpans c4wdoc ((⟨0, 8, 3, 8⟩ : ReMatch) :: [⟨9, 17, 12, 17⟩]))
        ([(⟨9, 17, 12, 17⟩ : ReMatch)].map (matchText c4wdoc))) :=
  ⟨by decide, claim_C4 c4wdoc ⟨0, 8, 3, 8⟩ [⟨9, 17, 12, 17⟩] (by decide)⟩

/-- Claim C5: a section that accumulates zero changes is never present in
the `sections` sequence returned by the hierarchical parser — on a header
transition the open section is appended only when non-empty, the section
still open at end of input is flushed under the same condition, and
consecutive headers with no bullets between them collapse so that only the
last one can survive (shown on the concrete body `c5body`, where header
`A` is discarded and only `B` survives). -/
theorem claim_C5 :
    (∀ body : Str, ∀ s ∈ (parseReleaseBody body).1, s.changes ≠ []) ∧
    parseReleaseBody c5body = ([⟨("B".toList), [("x".toList)]⟩], []) :=
  ⟨parseReleaseBody_sections_nonempty, by decide⟩

/-- Claim C5, witness: the theorem applied to the concrete body `w1body`
and its surviving section, whose change list is non-empty. -/
theorem claim_C5_witness :
    (⟨("A".toList), [("y".toList)]⟩ : Section) ∈ (parseReleaseBody w1body).1 ∧
    (⟨("A".toList), [("y".toList)]⟩ : Section).changes ≠ [] :=
  ⟨by decide, claim_C5.1 w1body ⟨("A".toList), [("y".toList)]⟩ (by decide)⟩

/-- Claim C6: a header line whose trimmed text is exactly the
Whats-Changed wrapper leaves the scan state unchanged — it opens no
section, closes no section and produces no section of that name — so
bullets following it are attributed to the previously open section
(concrete body `c6body`) or to the ungrouped list when no section was
open (concrete body `c6body2`). -/
theorem claim_C6 :
    (∀ (st : PRBState) (line cap : Str),
      headerMatch (trimSpace line) = some cap → trimSpace cap = whatsChanged →
      prbStep st line = st) ∧
    (∀ body : Str, ∀ s ∈ (parseReleaseBody body).1, s.name ≠ whatsChanged) ∧
    parseReleaseBody c6body =
      ([⟨("A".toList), [("a".toList), ("b".toList)]⟩], []) ∧
    parseReleaseBody c6body2 = ([], [("c".toList)]) := by
  refine ⟨?_, parseReleaseBody_no_whatsChanged, by decide, by decide⟩
  intro st line cap hm hcap
  simp [prbStep, hm, hcap]

/-- Claim C6, witness: the theorem applied to the concrete wrapper line
`w6line` and a non-trivial scan state `w6state`: the step leaves the state
unchanged. -/
theorem claim_C6_witness :
    headerMatch (trimSpace w6line) = some w6cap ∧
    trimSpace w6cap = whatsChanged ∧
    prbStep w6state w6line = w6state :=
  ⟨by decide, by decide, claim_C6.1 w6state w6line w6cap (by decide) (by decide)⟩

/-- Claim C7: within a span the flat parser collects, in document order,
exactly the trimmed lines that start with the dash marker, with the marker
removed — star-marker lines are not collected and no attribution-mention
filtering is applied, as the concrete span `c7doc` shows: its star bullet
is dropped while its at-sign bullet is kept. -/
theorem claim_C7 :
    (∀ content : Str, parseChanges content =
      (((splitLines content).map trimSpace).filter
        (fun t => dashMarker.isPrefixOf t)).map (fun t => t.drop 2)) ∧
    parseChanges c7doc = [("@kept".toList), ("normal".toList)] :=
  ⟨parseChanges_spec, by decide⟩

/-- Claim C8: the dated variant parses the date capture as a
year-month-day value at midnight with zero zone offset: the concrete
header document `c8doc` (header line `## 1.5.0 - 2025-03-10`) yields one
entry with version `1.5.0` and released-at March 10, 2025, midnight UTC;
and in general every entry the dated variant produces has zero
time-of-day fields and zero zone offset. -/
theorem claim_C8 :
    parseMarkdownChangelogWithDate c8doc c8ms =
      [{ version := ("1.5.0".toList), releasedAt := ⟨2025, 3, 10, 0, 0, 0, 0⟩,
         source := [], sections := [], changes := [("x".toList)] }] ∧
    (∀ (content : Str) (ms : List ReMatchD),
      (parseMarkdownChangelogWithDate content ms).all
        (fun e => e.releasedAt.hour == 0 && e.releasedAt.minute == 0 &&
          e.releasedAt.second == 0 && e.releasedAt.offsetMin == 0) = true) :=
  ⟨by decide, parseMarkdownChangelogWithDate_timeFields⟩

/-- Claim C9: the parsing layer is total — in this embedding every parser
is a plain function returning a value for every input — and degenerate
inputs yield degenerate results rather than errors: zero header matches
yield the empty entry sequence (not a single degenerate entry), and empty
or header-free bodies yield empty section and change lists. -/
theorem claim_C9 :
    (∀ content : Str, parseMarkdownChangelog content [] = []) ∧
    (∀ content : Str, parseMarkdownChangelogWithDate content [] = []) ∧
    parseReleaseBody [] = ([], []) ∧
    parseChanges [] = [] ∧
    parseReleaseBody ("no headers, just some prose".toList) = ([], []) :=
  ⟨fun _ => rfl, fun _ => rfl, by decide, by decide, by decide⟩

/-- Claim C10: a captured date that matches the textual shape but is no
valid calendar date is parsed to the zero time and the entry is still
produced: on `c10doc` (header `## 1.5.0 - 2025-13-40`) the dated variant
emits the entry with the zero released-at value; in general the dated
variant never drops an entry (one entry per match); and a release record
with a malformed `published_at` is likewise emitted with the zero time —
the time-parse error is discarded in both places. -/
theorem claim_C10 :
    parseMarkdownChangelogWithDate c10doc c10ms =
      [{ version := ("1.5.0".toList), releasedAt := GoTime.zero,
         source := [], sections := [], changes := [("x".toList)] }] ∧
    (∀ (content : Str) (ms : List ReMatchD),
      (parseMarkdownChangelogWithDate content ms).length = ms.length) ∧
    releasesToEntries [c10rel] =
      [{ version := ("1.0.0".toList), releasedAt := GoTime.zero,
         source := [], sections := [], changes := [] }] ∧
    timeParseDate ("2025-13-40".toList) = none ∧
    timeParseRFC3339 c10rel.publishedAt = none :=
  ⟨by decide, parseMarkdownChangelogWithDate_length, by decide, by decide,
   by decide⟩
